import Mathlib

/-!
Verification of the memson in-memory JSON store.

Shallow embedding of the core of the `memson` repository (files
`json.rs`, `inmemdb.rs`, `apply.rs`, `err.rs`) and proofs about it.

Modelling conventions:
* `serde_json::Value` becomes the inductive `Json`; `serde_json::Number`
  becomes `JsonNum`, keeping the integer/float distinction (`Number`
  equality in serde distinguishes the representations, as does ours).
* Rust `f64` values are modelled as exact rationals (`Rat`).  Every
  concrete computation appearing in a theorem below stays inside the
  dyadic range where `f64` arithmetic is exact, so the model agrees with
  the code at those points.
* A JSON object (`serde_json::Map`) is an association list with unique
  keys; the operations below mirror `get` / `insert` / `remove`.
* Rust functions returning `Result<_, Error>` become `Except RunErr _`;
  a Rust panic (`unwrap` on `None`, `unimplemented!`, integer-division
  overflow) is the distinguished outcome `RunErr.panicked`, ordinary
  `Err(e)` is `RunErr.err e`.
-/

set_option autoImplicit false

namespace Memson

/-- Embedding of `serde_json::Number`: an integer (`i64`/`u64` backed) or a float. -/
inductive JsonNum where
  | int (i : Int)
  | float (q : Rat)
  deriving DecidableEq, Repr

/-- Embedding of `serde_json::Value`. -/
inductive Json where
  | null
  | bool (b : Bool)
  | num (n : JsonNum)
  | str (s : String)
  | arr (xs : List Json)
  | obj (o : List (String × Json))
  deriving Repr

/-- The error enum of `err.rs` together with the extra variants used by
`inmemdb.rs` (`UnknownKey`, `BadObject`). -/
inductive Error where
  | BadType
  | BadCmd
  | BadKey
  | UnknownKey (name : String)
  | ExpectedObj
  | ExpectedArr
  | BadFrom
  | BadObject
  | Serialize
  deriving DecidableEq, Repr

/-- Outcome layer distinguishing a returned `Err(e)` from a Rust panic. -/
inductive RunErr where
  | err (e : Error)
  | panicked
  deriving DecidableEq, Repr

abbrev Res (α : Type) := Except RunErr α

/-- Embedding of `serde_json::Map::get`. -/
def objGet (o : List (String × Json)) (k : String) : Option Json :=
  match o with
  | [] => none
  | (k', v) :: rest => if k' = k then some v else objGet rest k

/-- Embedding of `serde_json::Map::insert` (replace in place when the key exists). -/
def objInsert (o : List (String × Json)) (k : String) (v : Json) :
    List (String × Json) :=
  match o with
  | [] => [(k, v)]
  | (k', v') :: rest =>
    if k' = k then (k, v) :: rest else (k', v') :: objInsert rest k v

/-- Embedding of `serde_json::Map::remove`. -/
def objRemove (o : List (String × Json)) (k : String) : List (String × Json) :=
  match o with
  | [] => []
  | (k', v') :: rest =>
    if k' = k then rest else (k', v') :: objRemove rest k

namespace Json

/-- Embedding of `Value::get(key)`: field lookup, `None` on anything but an `Object`. -/
def get? (val : Json) (k : String) : Option Json :=
  match val with
  | .obj o => objGet o k
  | _ => none

def isObj : Json → Bool
  | .obj _ => true
  | _ => false

def isArr : Json → Bool
  | .arr _ => true
  | _ => false

def isNum : Json → Bool
  | .num _ => true
  | _ => false

end Json

/-! ## json.rs: `json_get` and inmemdb.rs: `InMemDb::key` (dotted lookup) -/

/-- Embedding of `json_get` (json.rs).  On an `Array` it projects every element and keeps
the present results; an empty projection (or empty array) yields `None`.
On an `Object` it is a field lookup; on anything else `None`. -/
def json_get (key : String) : Json → Option Json
  | .arr a =>
    if a.isEmpty then none
    else
      let out := a.attach.filterMap (fun x => json_get key x.1)
      if out.isEmpty then none else some (.arr out)
  | .obj o => objGet o key
  | _ => none
decreasing_by
  have h := List.sizeOf_lt_of_mem x.2
  simp only [Json.arr.sizeOf_spec]
  omega

/-- The `for key in it` loop body of `InMemDb::key`:
`nested_val = json_get(key, if let Some(v) = nested_val { v } else { val })`.
Note the fall-back to the top-level value `top` whenever the accumulator is
`None`. -/
def dbKeyLoop (top : Json) (acc : Option Json) : List String → Option Json
  | [] => acc
  | k :: rest => dbKeyLoop top (json_get k (acc.getD top)) rest

/-- The store cache of `InMemDb`: a `BTreeMap<String, Json>`, modelled as an
association list with unique keys (only `get` is observed below). -/
abbrev Store := List (String × Json)

/-- Helper for `dotSplit`: accumulate the current segment (reversed). -/
def splitSegsAux (cur : List Char) : List Char → List String
  | [] => [String.mk cur.reverse]
  | c :: rest =>
    if c = '.' then String.mk cur.reverse :: splitSegsAux [] rest
    else splitSegsAux (c :: cur) rest

/-- Rust's `str::split('.')` as used by `InMemDb::key`: the list of
dot-separated segments (`"a" ↦ ["a"]`, `"a.b" ↦ ["a", "b"]`,
`"" ↦ [""]`); it is never empty. -/
def dotSplit (s : String) : List String :=
  splitSegsAux [] s.toList

/-- Embedding of `InMemDb::key` (inmemdb.rs).  Splits on dots, resolves the first segment
in the cache (missing: `UnknownKey(key)`), then folds `json_get` over the
remaining segments; if that fold ends with `None`, the whole top-level value
is returned. -/
def dbKey (db : Store) (key : String) : Except Error Json :=
  match dotSplit key with
  | [] => .error (.UnknownKey key) -- unreachable: `dotSplit` never returns `[]`
  | first :: rest =>
    match objGet db first with
    | none => .error (.UnknownKey key)
    | some val =>
      match dbKeyLoop val none rest with
      | some v => .ok v
      | none => .ok val

/-! ## inmemdb.rs: query plumbing (`eval_from`, `eval_where`,
`eval_select_all`, `add_row_id`) -/

/-- Embedding of `json_obj_ref` (json.rs). -/
def json_obj_ref : Json → Except Error (List (String × Json))
  | .obj o => .ok o
  | _ => .error .ExpectedObj

/-- Embedding of `add_row_id` (inmemdb.rs): clone the object and insert `_id = i` when the
field is absent; a non-object row is a `BadObject` error. -/
def add_row_id (row : Json) (i : Nat) : Except Error Json :=
  match row with
  | .obj o =>
    .ok (.obj (if (objGet o ("_id")).isNone
               then objInsert o ("_id") (.num (.int i))
               else o))
  | _ => .error .BadObject

/-- Modelled from the spec: the `Filter` type (`FilterExpression`) lives in
the repository's `cmd.rs`, which is not among the sources; only its
interface `Filter::apply(&self, &JsonObj) -> bool` is used by
`Query::eval_where`, so a filter is modelled as an arbitrary boolean
predicate on row objects. -/
abbrev FilterPred := List (String × Json) → Bool

/-- The `for (i, row) in rows.iter().enumerate()` loop of
`Query::eval_where` (inmemdb.rs), starting at index `i`. -/
def eval_where_aux (p : FilterPred) (i : Nat) :
    List Json → Except Error (List Json)
  | [] => .ok []
  | row :: rest => do
    let o ← json_obj_ref row
    if p o then do
      let tagged ← add_row_id row i
      let tail ← eval_where_aux p (i + 1) rest
      pure (tagged :: tail)
    else
      eval_where_aux p (i + 1) rest

/-- Embedding of `Query::eval_where` (inmemdb.rs): every row must be an object
(`json_obj_ref(row)?`); rows passing the filter are tagged with `_id`. -/
def eval_where (p : FilterPred) (rows : List Json) :
    Except Error (List Json) :=
  eval_where_aux p 0 rows

/-- Embedding of `InMemDb::get_ref` (inmemdb.rs). -/
def get_ref (db : Store) (key : String) : Except Error Json :=
  match objGet db key with
  | some v => .ok v
  | none => .error .BadKey

/-- Embedding of `Query::eval_from` (inmemdb.rs): the `from` key must resolve to an
`Array`; every other outcome is `BadFrom`. -/
def eval_from (db : Store) (fromKey : String) : Except Error (List Json) :=
  match get_ref db fromKey with
  | .ok (.arr rows) => .ok rows
  | _ => .error .BadFrom

/-- The `for (i, row) in rows.iter().take(50).enumerate()` loop of
`Query::eval_select_all`. -/
def eval_select_all_aux (i : Nat) : List Json → Except Error (List Json)
  | [] => .ok []
  | row :: rest => do
    let r ← add_row_id row i
    let tail ← eval_select_all_aux (i + 1) rest
    pure (r :: tail)

/-- Embedding of `Query::eval_select_all` (inmemdb.rs): first 50 rows, each tagged with
`_id`. -/
def eval_select_all (rows : List Json) : Except Error Json :=
  (eval_select_all_aux 0 (rows.take 50)).map Json.arr

/-! ## json.rs: numbers and arithmetic -/

/-- Embedding of `Number::as_f64` (total on both representations; `f64` is modelled as an
exact rational). -/
def JsonNum.as_f64 : JsonNum → Rat
  | .int i => (i : Rat)
  | .float q => q

/-- Embedding of `Number::is_i64`: true exactly for integers in the `i64` range. -/
def JsonNum.is_i64 : JsonNum → Bool
  | .int i => decide (-(2 ^ 63) ≤ i ∧ i < 2 ^ 63)
  | .float _ => false

/-- Embedding of `Number::as_i64`. -/
def JsonNum.as_i64 : JsonNum → Option Int
  | .int i => if -(2 ^ 63) ≤ i ∧ i < 2 ^ 63 then some i else none
  | .float _ => none

/-- Embedding of `json_f64` (json.rs): numeric coercion of a value. -/
def json_f64 : Json → Option Rat
  | .num n => some n.as_f64
  | _ => none

/-- Embedding of `json_add_nums` (json.rs): integer addition when both operands are
`i64`, float addition otherwise. -/
def json_add_nums (x y : JsonNum) : JsonNum :=
  match x.is_i64, y.is_i64 with
  | true, true => .int ((x.as_i64.getD 0) + (y.as_i64.getD 0))
  | _, _ => .float (x.as_f64 + y.as_f64)

/-- The element loop of `json_add_arr_num` (json.rs): every element goes
through `x.as_f64().unwrap()`, so each result is a float and a non-numeric
element panics (it is not a `BadType` error). -/
def json_add_arr_num_loop (y : JsonNum) : List Json → Res (List Json)
  | [] => .ok []
  | x :: rest =>
    match json_f64 x with
    | some q => do
      let out ← json_add_arr_num_loop y rest
      pure (Json.num (.float (q + y.as_f64)) :: out)
    | none => .error .panicked

/-- Embedding of `json_add_arr_num` (json.rs): broadcast a scalar over an array. -/
def json_add_arr_num (xs : List Json) (y : JsonNum) : Res Json :=
  (json_add_arr_num_loop y xs).map .arr

/-- Embedding of `json_add_str` (json.rs): string concatenation. -/
def json_add_str (x y : String) : Res Json :=
  .ok (.str (x ++ y))

/-- Embedding of `add_str_val` (json.rs). -/
def add_str_val (x : String) (y : Json) : Res Json :=
  match y with
  | .str s => .ok (.str (x ++ s))
  | _ => .error (.err .BadType)

/-- The element loop of `add_str_arr` (json.rs). -/
def add_str_arr_loop (x : String) : List Json → Res (List Json)
  | [] => .ok []
  | y :: rest => do
    let v ← add_str_val x y
    let out ← add_str_arr_loop x rest
    pure (v :: out)

/-- Embedding of `add_str_arr` (json.rs). -/
def add_str_arr (x : String) (ys : List Json) : Res Json :=
  (add_str_arr_loop x ys).map .arr

/-- Embedding of `add_val_str` (json.rs). -/
def add_val_str (x : Json) (y : String) : Res Json :=
  match x with
  | .str s => .ok (.str (s ++ y))
  | _ => .error (.err .BadType)

/-- The element loop of `add_arr_str` (json.rs). -/
def add_arr_str_loop (y : String) : List Json → Res (List Json)
  | [] => .ok []
  | x :: rest => do
    let v ← add_val_str x y
    let out ← add_arr_str_loop y rest
    pure (v :: out)

/-- Embedding of `add_arr_str` (json.rs). -/
def add_arr_str (xs : List Json) (y : String) : Res Json :=
  (add_arr_str_loop y xs).map .arr

mutual

/-- Embedding of `json_add` (json.rs): pairwise dispatch over the operand shapes. -/
def json_add (lhs rhs : Json) : Res Json :=
  match lhs, rhs with
  | .arr x, .arr y => (json_add_arrs x y).map .arr
  | .arr x, .num y => json_add_arr_num x y
  | .num y, .arr x => json_add_arr_num x y
  | .num x, .num y => .ok (.num (json_add_nums x y))
  | .str x, .str y => json_add_str x y
  | .str x, .arr y => add_str_arr x y
  | .arr x, .str y => add_arr_str x y
  | _, _ => .error (.err .BadType)

/-- Embedding of `json_add_arrs` (json.rs): elementwise zip; the inner
`json_add(x, y).unwrap()` panics on any elementwise error. -/
def json_add_arrs : List Json → List Json → Res (List Json)
  | x :: xs, y :: ys => do
    let v ← match json_add x y with
            | .ok v => pure v
            | .error _ => throw RunErr.panicked
    let rest ← json_add_arrs xs ys
    pure (v :: rest)
  | _, _ => .ok []

end

/-- The smallest `i64`. -/
def i64Min : Int := -(2 ^ 63)

/-- Embedding of `json_bar_num_num` (json.rs): both operands must be `i64`
(`as_i64`), then `x / y * y` in `i64` arithmetic.  The division is
unguarded: `y == 0` panics, and `i64::MIN / -1` panics with overflow. -/
def json_bar_num_num (x y : JsonNum) : Res Json :=
  match x.as_i64, y.as_i64 with
  | some a, some b =>
    if b = 0 then .error .panicked
    else if a = i64Min ∧ b = -1 then .error .panicked
    else .ok (.num (.int (a.tdiv b * b)))
  | _, _ => .error (.err .BadType)

mutual

/-- Embedding of `json_bar` (json.rs): the `Bar` combinator; note the `(Array, rhs)`
catch-all, so `(Number, Array)` falls through to `BadType`. -/
def json_bar (lhs rhs : Json) : Res Json :=
  match lhs, rhs with
  | .arr x, .arr y => (json_bar_arrs x y).map .arr
  | .arr x, r => (json_bar_arr_val x r).map .arr
  | .num x, .num y => json_bar_num_num x y
  | _, _ => .error (.err .BadType)

/-- Embedding of `json_bar_arrs` (json.rs). -/
def json_bar_arrs : List Json → List Json → Res (List Json)
  | x :: xs, y :: ys => do
    let v ← json_bar x y
    let rest ← json_bar_arrs xs ys
    pure (v :: rest)
  | _, _ => .ok []

/-- Embedding of `json_bar_arr_val` (json.rs). -/
def json_bar_arr_val : List Json → Json → Res (List Json)
  | [], _ => .ok []
  | x :: xs, r => do
    let v ← json_bar x r
    let rest ← json_bar_arr_val xs r
    pure (v :: rest)

end

/-! ## json.rs: comparisons -/

/-- Embedding of `json_cmp` (json.rs), abstracted over the per-type comparison (the
source passes a `Compare` closure).  Numbers compare as `i64` only when
both are `i64`, otherwise as `f64`; mismatched types are `false`. -/
def json_cmp (fS : String → String → Bool) (fI : Int → Int → Bool)
    (fQ : Rat → Rat → Bool) (fB : Bool → Bool → Bool) (x y : Json) : Bool :=
  match x, y with
  | .str a, .str b => fS a b
  | .num a, .num b =>
    match a.is_i64, b.is_i64 with
    | true, true => fI (a.as_i64.getD 0) (b.as_i64.getD 0)
    | _, _ => fQ a.as_f64 b.as_f64
  | .bool a, .bool b => fB a b
  | _, _ => false

/-- Embedding of `json_gt` (json.rs). -/
def json_gt (x y : Json) : Bool :=
  json_cmp (fun a b => decide (a > b)) (fun a b => decide (a > b))
    (fun a b => decide (a > b)) (fun a b => decide (a > b)) x y

/-- Embedding of `json_lt` (json.rs). -/
def json_lt (x y : Json) : Bool :=
  json_cmp (fun a b => decide (a < b)) (fun a b => decide (a < b))
    (fun a b => decide (a < b)) (fun a b => decide (a < b)) x y

/-! ## json.rs: aggregates -/

/-- Embedding of `json_count` (json.rs): array length, `1` for anything else. -/
def json_count : Json → Json
  | .arr a => .num (.int a.length)
  | _ => .num (.int 1)

/-- Embedding of `json_first` (json.rs): head of a non-empty array, identity
otherwise (including the empty array). -/
def json_first : Json → Json
  | .arr (x :: _) => x
  | v => v

/-- Embedding of `json_last` (json.rs). -/
def json_last : Json → Json
  | .arr (x :: xs) => xs.getLastD x
  | v => v

/-- The fold inside `arr_max` (json.rs). -/
def arr_max_aux (m : Json) : List Json → Json
  | [] => m
  | v :: rest => arr_max_aux (if json_gt v m then v else m) rest

/-- Embedding of `json_max` (json.rs). -/
def json_max : Json → Json
  | .arr (x :: xs) => arr_max_aux x xs
  | v => v

/-- The fold inside `arr_min` (json.rs). -/
def arr_min_aux (m : Json) : List Json → Json
  | [] => m
  | v :: rest => arr_min_aux (if json_lt v m then v else m) rest

/-- Embedding of `json_min` (json.rs). -/
def json_min : Json → Json
  | .arr (x :: xs) => arr_min_aux x xs
  | v => v

/-- The loop of `json_arr_sum` (json.rs): fold `json_add_nums` over the
numeric elements, silently skipping non-numbers. -/
def json_arr_sum_aux (total : JsonNum) : List Json → JsonNum
  | [] => total
  | .num n :: rest => json_arr_sum_aux (json_add_nums total n) rest
  | _ :: rest => json_arr_sum_aux total rest

/-- Embedding of `json_arr_sum` (json.rs). -/
def json_arr_sum (s : List Json) : Json :=
  .num (json_arr_sum_aux (.int 0) s)

/-- Embedding of `json_sum` (json.rs): identity on numbers, array sum on arrays, and
`Null` on every other value. -/
def json_sum : Json → Json
  | .num n => .num n
  | .arr a => json_arr_sum a
  | _ => .null

/-- The `total += json_f64(val).ok_or(Error::BadType)?` loops of
`json_arr_avg` / `json_arr_var` / `json_arr_dev` (json.rs). -/
def sum_f64_aux (acc : Rat) : List Json → Except Error Rat
  | [] => .ok acc
  | v :: rest =>
    match json_f64 v with
    | some q => sum_f64_aux (acc + q) rest
    | none => .error .BadType

/-- The second-pass `var += (json_f64(val)? - mean).powf(2.0)` loops of
`json_arr_var` / `json_arr_dev` (json.rs). -/
def sq_sum_f64_aux (mean acc : Rat) : List Json → Except Error Rat
  | [] => .ok acc
  | v :: rest =>
    match json_f64 v with
    | some q => sq_sum_f64_aux mean (acc + (q - mean) ^ 2) rest
    | none => .error .BadType

/-- Embedding of `json_arr_avg` (json.rs): arithmetic mean over `n` elements.  (The
empty-array case divides 0.0 by 0.0 in the source, producing NaN and then a
`BadType` from `from_f64`; the rational model returns `0` there.  No
theorem below evaluates it on an empty array.) -/
def json_arr_avg (s : List Json) : Except Error Json := do
  let total ← sum_f64_aux 0 s
  pure (.num (.float (total / (s.length : Rat))))

/-- Embedding of `json_arr_var` (json.rs): first pass divides the sum by `n - 1`
(`usize` subtraction), second pass divides the squared deviations by `n`.
(For `n = 0` the source underflows `s.len() - 1`; for `n = 1` it divides by
zero in `f64`.  No theorem below evaluates either case.) -/
def json_arr_var (s : List Json) : Except Error Json := do
  let sum ← sum_f64_aux 0 s
  let mean := sum / ((s.length - 1 : Nat) : Rat)
  let v ← sq_sum_f64_aux mean 0 s
  pure (.num (.float (v / (s.length : Rat))))

/-- Stand-in for `f64::sqrt`, which is irrational in general: the rational
square-root approximation.  No theorem below depends on its value. -/
def f64_sqrt (q : Rat) : Rat :=
  (Rat.sqrt q)

/-- Embedding of `json_arr_dev` (json.rs): both passes divide by `n`, then the square
root is taken. -/
def json_arr_dev (s : List Json) : Except Error Json := do
  let sum ← sum_f64_aux 0 s
  let avg := sum / (s.length : Rat)
  let v ← sq_sum_f64_aux avg 0 s
  pure (.num (.float (f64_sqrt (v / (s.length : Rat)))))

/-- Embedding of `json_avg` (json.rs): identity on numbers, mean on arrays, `BadType`
otherwise. -/
def json_avg : Json → Except Error Json
  | .num n => .ok (.num n)
  | .arr a => json_arr_avg a
  | _ => .error .BadType

/-- Embedding of `json_var` (json.rs). -/
def json_var : Json → Except Error Json
  | .num n => .ok (.num n)
  | .arr a => json_arr_var a
  | _ => .error .BadType

/-- Embedding of `json_dev` (json.rs). -/
def json_dev : Json → Except Error Json
  | .num n => .ok (.num n)
  | .arr a => json_arr_dev a
  | _ => .error .BadType

/-! ## apply.rs: row-scoped `Key` resolution -/

/-- Embedding of `get_key` (apply.rs): `row.get(key).cloned().unwrap_or(Json::Null)`. -/
def get_key (row : Json) (key : String) : Json :=
  (row.get? key).getD .null

/-- Embedding of `apply_key` (apply.rs): project `key` out of every row, keeping only
the present values, in row order (`map` / `filter(is_some)` / `unwrap`). -/
def apply_key (key : String) (rows : List Json) : Json :=
  .arr (((rows.map (fun x => x.get? key)).filter Option.isSome).map
    (fun o => o.getD .null))

/-- Embedding of `apply_key2` (apply.rs): on an `Array` the same present-only
projection; on any other value a single `get_key` lookup. -/
def apply_key2 (key : String) (val : Json) : Res Json :=
  .ok (match val with
  | .arr a =>
    .arr (((a.map (fun x => x.get? key)).filter Option.isSome).map
      (fun o => o.getD .null))
  | v => get_key v key)

/-! ## inmemdb.rs: grouped select (`by` present, `selects` absent) -/

/-- Embedding of `json_key_string` (inmemdb.rs): `unimplemented!()` (a panic) on any
non-string group key, modelled as `none`. -/
def json_key_string : Json → Option String
  | .str s => some s
  | _ => none

/-- Embedding of `populate_entry` (inmemdb.rs): `entry(key).or_insert(Array)`, then
`json_into_arr` (panics on a non-array entry) and `push`. -/
def populate_entry (out : List (String × Json)) (byVal arg : Json) :
    Res (List (String × Json)) :=
  match json_key_string byVal with
  | none => .error .panicked
  | some k =>
    match (objGet out k).getD (.arr []) with
    | .arr xs => .ok (objInsert out k (.arr (xs ++ [arg])))
    | _ => .error .panicked

/-- The row loop of the `selects = None` branch of
`Query::eval_keyed_select` (inmemdb.rs): skip non-object rows and rows
without the `by` field; group the row (with the `by` field removed) under
the stringified `by` value. -/
def eval_keyed_aux (byKey : String) (split : List (String × Json)) :
    List Json → Res (List (String × Json))
  | [] => .ok split
  | row :: rest =>
    match row with
    | .obj o =>
      match objGet o byKey with
      | some byVal => do
        let split' ← populate_entry split byVal (.obj (objRemove o byKey))
        eval_keyed_aux byKey split' rest
      | none => eval_keyed_aux byKey split rest
    | _ => eval_keyed_aux byKey split rest

/-- Embedding of `Query::eval_keyed_select` (inmemdb.rs) in the `selects = None` case
(`parse_keys` returns `Ok(None)` there).  The `by` value must be a string
(`todo!()`, i.e. a panic, otherwise). -/
def eval_keyed_select_noselects (by_ : Json) (rows : List Json) : Res Json :=
  match by_ with
  | .str byKey => (eval_keyed_aux byKey [] rows).map .obj
  | _ => .error .panicked

/-- Total number of grouped rows: the sum of the group lengths (the
measuring function of the spec's grouping property). -/
def groupTotal (o : List (String × Json)) : Nat :=
  (o.map (fun kv => match kv.2 with | .arr xs => xs.length | _ => 0)).sum

/-! ## Helper lemmas -/

@[simp]
theorem except_bind_ok {ε α β : Type} (a : α) (f : α → Except ε β) :
    (Except.ok a >>= f) = f a := rfl

@[simp]
theorem except_bind_error {ε α β : Type} (e : ε) (f : α → Except ε β) :
    ((Except.error e : Except ε α) >>= f) = Except.error e := rfl

@[simp]
theorem except_map_ok {ε α β : Type} (a : α) (f : α → β) :
    (f <$> (Except.ok a : Except ε α)) = Except.ok (f a) := rfl

@[simp]
theorem except_map_error {ε α β : Type} (e : ε) (f : α → β) :
    (f <$> (Except.error e : Except ε α)) = (Except.error e : Except ε β) := rfl

@[simp]
theorem except_Map_ok {ε α β : Type} (a : α) (f : α → β) :
    Except.map f (Except.ok a : Except ε α) = Except.ok (f a) := rfl

@[simp]
theorem except_Map_error {ε α β : Type} (e : ε) (f : α → β) :
    Except.map f (Except.error e : Except ε α) = (Except.error e : Except ε β) := rfl

theorem filter_isSome_map_getD {α : Type} (f : α → Option Json) (l : List α) :
    ((l.map f).filter Option.isSome).map (fun o => o.getD Json.null)
      = l.filterMap f := by
  induction l with
  | nil => rfl
  | cons a t ih => cases h : f a <;> simp [List.filterMap_cons, h, ih]

/-! ## C7: the FROM stage -/

/-- C7: for every store and `from` key, a key that is missing or whose value
is not an Array makes `eval_from` fail with the bad-source error (`BadFrom`,
no fallback, no wrapping); a key holding an Array yields exactly that
array's rows in order. -/
theorem eval_from_spec (db : Store) (k : String) :
    (∀ rows, objGet db k = some (Json.arr rows) → eval_from db k = .ok rows) ∧
    ((∀ rows, objGet db k ≠ some (Json.arr rows)) →
      eval_from db k = .error .BadFrom) := by
  constructor
  · intro rows h
    simp [eval_from, get_ref, h]
  · intro h
    unfold eval_from get_ref
    cases hg : objGet db k with
    | none => simp
    | some v =>
      cases v with
      | arr rows => exact absurd hg (h rows)
      | null => simp
      | bool b => simp
      | num n => simp
      | str s => simp
      | obj o => simp

/-- Witness for C7: a concrete array source succeeds with its rows, and a
concrete non-array source fails with `BadFrom`. -/
theorem eval_from_spec_witness :
    eval_from [(("t"), Json.arr [Json.null])] ("t") = .ok [Json.null] ∧
    eval_from [(("t"), Json.num (.int 1))] ("t") = .error .BadFrom := by
  constructor
  · exact (eval_from_spec [(("t"), Json.arr [Json.null])] ("t")).1
      [Json.null] rfl
  · exact (eval_from_spec [(("t"), Json.num (.int 1))] ("t")).2
      (by intro rows h; simp [objGet] at h)

/-! ## C8: row-scoped Key projection -/

/-- C8: row-scoped `Key(k)` on an Array of rows returns the k-field values
of exactly the rows that have the field, in row order (rows lacking the
field contribute nothing); on a single Object holding the field it returns
that field's value via a single lookup.  Both the `apply_rows` entry point
(`apply_key`) and the `apply` entry point (`apply_key2`) are covered. -/
theorem apply_key_spec (k : String) (rows : List Json)
    (o : List (String × Json)) (v : Json) (hv : objGet o k = some v) :
    apply_key k rows = .arr (rows.filterMap (fun r => r.get? k)) ∧
    apply_key2 k (.arr rows) = .ok (.arr (rows.filterMap (fun r => r.get? k))) ∧
    apply_key2 k (.obj o) = .ok v := by
  refine ⟨?_, ?_, ?_⟩
  · simp [apply_key, filter_isSome_map_getD]
  · simp [apply_key2, filter_isSome_map_getD]
  · simp [apply_key2, get_key, Json.get?, hv]

/-- Witness for C8: a concrete mixed row set (one row with the field, one
non-object row) and a concrete object. -/
theorem apply_key_spec_witness :
    apply_key ("a") [Json.obj [(("a"), Json.num (.int 1))], Json.num (.int 2)]
      = .arr [Json.num (.int 1)] ∧
    apply_key2 ("a") (.obj [(("a"), Json.num (.int 1))])
      = .ok (.num (.int 1)) := by
  have h := apply_key_spec ("a")
    [Json.obj [(("a"), Json.num (.int 1))], Json.num (.int 2)]
    [(("a"), Json.num (.int 1))] (Json.num (.int 1)) (by simp [objGet])
  exact ⟨by simpa [Json.get?, objGet] using h.1, h.2.2⟩

/-! ## C10: the Bar combinator -/

/-- C10 (corrected): `Bar` on two numbers requires both operands to be
`i64` (`BadType` otherwise); for `i64` operands with `y ≠ 0` and excluding
the `i64::MIN / -1` overflow it returns `x / y * y` with truncating
division.  `y = 0` and `i64::MIN / -1` panic, so `y ≠ 0` alone does not
rule out the non-`ok` outcomes. -/
theorem json_bar_num_spec (x y : JsonNum) :
    (∀ a b, x.as_i64 = some a → y.as_i64 = some b → b ≠ 0 →
      ¬(a = i64Min ∧ b = -1) →
      json_bar (.num x) (.num y) = .ok (.num (.int (a.tdiv b * b)))) ∧
    ((x.as_i64 = none ∨ y.as_i64 = none) →
      json_bar (.num x) (.num y) = .error (.err .BadType)) := by
  constructor
  · intro a b hx hy hb0 hmin
    simp [json_bar, json_bar_num_num, hx, hy, hb0, hmin]
  · intro h
    rcases h with h | h <;> simp [json_bar, json_bar_num_num, h]

/-- Counterexample for C10 as stated: at `x = i64::MIN`, `y = -1` the
operation panics with overflow instead of returning `(x / y) * y`, so
`y ≠ 0` alone is not a sufficient precondition. -/
theorem json_bar_num_counterexample :
    json_bar (.num (.int i64Min)) (.num (.int (-1))) = .error .panicked ∧
    ∀ z, json_bar (.num (.int i64Min)) (.num (.int (-1))) ≠ .ok z := by
  have h : json_bar (.num (.int i64Min)) (.num (.int (-1)))
      = .error .panicked := by
    simp [json_bar, json_bar_num_num, JsonNum.as_i64, i64Min]
  exact ⟨h, by simp [h]⟩

/-- Witness for C10: `7 | 2 = 6` through the integral branch, and a float
operand is rejected with `BadType`. -/
theorem json_bar_num_spec_witness :
    json_bar (.num (.int 7)) (.num (.int 2)) = .ok (.num (.int 6)) ∧
    json_bar (.num (.float (1/2))) (.num (.int 2))
      = .error (.err .BadType) := by
  constructor
  · have h := (json_bar_num_spec (.int 7) (.int 2)).1 7 2
      (by simp [JsonNum.as_i64]) (by simp [JsonNum.as_i64])
      (by decide) (by decide)
    simpa using h
  · exact (json_bar_num_spec (.float (1/2)) (.int 2)).2 (Or.inl rfl)

/-! ## C9: plain SELECT (no by, no selects) -/

theorem eval_select_all_aux_ok (l : List Json) (i : Nat)
    (h : ∀ r ∈ l, r.isObj = true) :
    ∃ out, eval_select_all_aux i l = .ok out ∧ out.length = l.length ∧
      ∀ j (hj : j < l.length) (hj2 : j < out.length),
        add_row_id (l.get ⟨j, hj⟩) (i + j) = .ok (out.get ⟨j, hj2⟩) := by
  induction l generalizing i with
  | nil => exact ⟨[], rfl, rfl, by intro j hj; exact absurd hj (by simp)⟩
  | cons r t ih =>
    obtain ⟨o, rfl⟩ : ∃ o, r = Json.obj o := by
      have hr := h r (List.mem_cons_self r t)
      cases r <;> simp [Json.isObj] at hr ⊢
    obtain ⟨out, hout, hlen, hget⟩ :=
      ih (i + 1) (fun x hx => h x (List.mem_cons_of_mem _ hx))
    refine ⟨(Json.obj (if (objGet o ("_id")).isNone
        then objInsert o ("_id") (.num (.int i)) else o)) :: out,
      ?_, by simp [hlen], ?_⟩
    · simp [eval_select_all_aux, add_row_id, hout]
    · intro j hj hj2
      cases j with
      | zero => simp [add_row_id]
      | succ j =>
        have := hget j (by simpa using hj) (by simpa using hj2)
        simpa [Nat.add_assoc, Nat.add_comm 1 j] using this

/-- C9: with no `by` and absent/empty `selects`, over a row list of length
m consisting of Objects, the result is exactly the first `min 50 m` rows in
source order, each passed through `add_row_id` (which tags `_id` with the
positional index unless the row already has an `_id` field). -/
theorem eval_select_all_spec (rows : List Json)
    (h : ∀ r ∈ rows, r.isObj = true) :
    ∃ out, eval_select_all rows = .ok (.arr out) ∧
      out.length = min 50 rows.length ∧
      ∀ j (hj : j < rows.length) (hj2 : j < out.length),
        add_row_id (rows.get ⟨j, hj⟩) j = .ok (out.get ⟨j, hj2⟩) := by
  obtain ⟨out, ho, hlen, hget⟩ := eval_select_all_aux_ok (rows.take 50) 0
    (fun r hr => h r (List.mem_of_mem_take hr))
  refine ⟨out, ?_, ?_, ?_⟩
  · simp [eval_select_all, ho]
  · rw [hlen, List.length_take]
  · intro j hj hj2
    have hjt : j < (rows.take 50).length := by rw [← hlen]; exact hj2
    have hline := hget j hjt hj2
    have heq : (rows.take 50).get ⟨j, hjt⟩ = rows.get ⟨j, hj⟩ := by
      simp [List.getElem_take]
    rw [heq] at hline
    simpa using hline

/-- Witness for C9: two object rows, the second already carrying `_id`. -/
theorem eval_select_all_spec_witness :
    ∃ out,
      eval_select_all [Json.obj [], Json.obj [(("_id"), Json.str ("x"))]]
        = .ok (.arr out) ∧
      out.length = min 50 2 ∧
      ∀ j (hj : j < ([Json.obj [],
          Json.obj [(("_id"), Json.str ("x"))]] : List Json).length)
        (hj2 : j < out.length),
        add_row_id (([Json.obj [],
          Json.obj [(("_id"), Json.str ("x"))]] : List Json).get ⟨j, hj⟩) j
          = .ok (out.get ⟨j, hj2⟩) :=
  eval_select_all_spec [Json.obj [], Json.obj [(("_id"), Json.str ("x"))]]
    (by intro r hr; simp at hr; rcases hr with rfl | rfl <;> rfl)

/-! ## C2: the WHERE stage on non-Object rows -/

theorem eval_where_aux_ok (p : FilterPred) (l : List Json) (i : Nat)
    (h : ∀ r ∈ l, r.isObj = true) :
    ∃ out, eval_where_aux p i l = .ok out := by
  induction l generalizing i with
  | nil => exact ⟨[], rfl⟩
  | cons r t ih =>
    obtain ⟨o, rfl⟩ : ∃ o, r = Json.obj o := by
      have hr := h r (List.mem_cons_self r t)
      cases r <;> simp [Json.isObj] at hr ⊢
    obtain ⟨out, hout⟩ := ih (i + 1) (fun x hx => h x (List.mem_cons_of_mem _ hx))
    by_cases hp : p o
    · exact ⟨(Json.obj (if (objGet o ("_id")).isNone
        then objInsert o ("_id") (.num (.int i)) else o)) :: out,
        by simp [eval_where_aux, json_obj_ref, hp, add_row_id, hout]⟩
    · exact ⟨out, by simp [eval_where_aux, json_obj_ref, hp, hout]⟩

theorem eval_where_aux_err (p : FilterPred) (l : List Json) (i : Nat)
    (h : ∃ r ∈ l, r.isObj = false) :
    eval_where_aux p i l = .error .ExpectedObj := by
  induction l generalizing i with
  | nil => simp at h
  | cons r t ih =>
    rcases h with ⟨b, hb, hbo⟩
    rcases List.mem_cons.mp hb with rfl | hbt
    · cases b <;> simp_all [eval_where_aux, json_obj_ref, Json.isObj]
    · have htail := ih (i + 1) ⟨b, hbt, hbo⟩
      cases r with
      | obj o =>
        by_cases hp : p o <;>
          simp [eval_where_aux, json_obj_ref, add_row_id, hp, htail]
      | null => simp [eval_where_aux, json_obj_ref]
      | bool c => simp [eval_where_aux, json_obj_ref]
      | num n => simp [eval_where_aux, json_obj_ref]
      | str s => simp [eval_where_aux, json_obj_ref]
      | arr xs => simp [eval_where_aux, json_obj_ref]

/-- C2 (corrected): a source row that is not an Object is NOT skipped by
the WHERE stage: `eval_where` (and hence the query) fails with
`ExpectedObj`.  The filter stage succeeds only when every row is an
Object. -/
theorem eval_where_amended (p : FilterPred) (rows : List Json) :
    ((∀ r ∈ rows, r.isObj = true) → ∃ out, eval_where p rows = .ok out) ∧
    ((∃ r ∈ rows, r.isObj = false) →
      eval_where p rows = .error .ExpectedObj) :=
  ⟨fun h => eval_where_aux_ok p rows 0 h,
   fun h => eval_where_aux_err p rows 0 h⟩

/-- Counterexample for C2 as stated: a single non-Object row makes the
WHERE stage fail with `ExpectedObj` instead of being skipped. -/
theorem eval_where_counterexample :
    eval_where (fun _ => true) [Json.num (.int 1)] = .error .ExpectedObj ∧
    ¬∃ out, eval_where (fun _ => true) [Json.num (.int 1)] = .ok out := by
  have h : eval_where (fun _ => true) [Json.num (.int 1)]
      = .error .ExpectedObj := rfl
  exact ⟨h, by simp [h]⟩

/-- Witness for C2: all-Object rows succeed; one non-Object row fails. -/
theorem eval_where_amended_witness :
    (∃ out, eval_where (fun _ => true) [Json.obj []] = .ok out) ∧
    eval_where (fun _ => true) [Json.obj [], Json.num (.int 1)]
      = .error .ExpectedObj := by
  constructor
  · exact (eval_where_amended (fun _ => true) [Json.obj []]).1
      (by intro r hr; simp at hr; subst hr; rfl)
  · exact (eval_where_amended (fun _ => true) _).2
      ⟨Json.num (.int 1), by simp, rfl⟩

/-! ## C6: aggregates on non-array values -/

/-- C6 (corrected): on a non-array value, `first`/`last`/`min`/`max` are
the identity; `sum`/`avg`/`var`/`dev` are the identity only on Numbers —
`sum` maps every other scalar to `Null`, and `avg`/`var`/`dev` fail with
`BadType` on every other scalar. -/
theorem aggregate_scalar_amended (v : Json) (hv : v.isArr = false) :
    json_first v = v ∧ json_last v = v ∧ json_max v = v ∧ json_min v = v ∧
    (v.isNum = true →
      json_sum v = v ∧ json_avg v = .ok v ∧ json_var v = .ok v ∧
      json_dev v = .ok v) ∧
    (v.isNum = false →
      json_sum v = Json.null ∧ json_avg v = .error .BadType ∧
      json_var v = .error .BadType ∧ json_dev v = .error .BadType) := by
  cases v <;> simp_all [Json.isArr, Json.isNum, json_first, json_last,
    json_max, json_min, json_sum, json_avg, json_var, json_dev]

/-- Counterexample for C6 as stated: `sum` on the scalar `true` returns
`Null`, not the scalar, and `avg` on it fails with `BadType` instead of
returning it. -/
theorem aggregate_scalar_counterexample :
    json_sum (.bool true) = Json.null ∧ Json.null ≠ Json.bool true ∧
    json_avg (.bool true) = .error .BadType := by
  refine ⟨rfl, by simp, rfl⟩

/-- Witness for C6: the identity results on a concrete string and the
concrete number 7. -/
theorem aggregate_scalar_amended_witness :
    (json_first (Json.str ("x")) = Json.str ("x") ∧
     json_sum (Json.str ("x")) = Json.null ∧
     json_var (Json.str ("x")) = .error .BadType) ∧
    (json_sum (Json.num (.int 7)) = Json.num (.int 7) ∧
     json_dev (Json.num (.int 7)) = .ok (Json.num (.int 7))) := by
  have h1 := aggregate_scalar_amended (Json.str ("x")) rfl
  have h2 := aggregate_scalar_amended (Json.num (.int 7)) rfl
  exact ⟨⟨h1.1, (h1.2.2.2.2.2 rfl).1, (h1.2.2.2.2.2 rfl).2.2.1⟩,
    ⟨(h2.2.2.2.2.1 rfl).1, (h2.2.2.2.2.1 rfl).2.2.2⟩⟩

/-! ## C1: dotted-path store lookup -/

/-- C1 (corrected): splitting on dots, only a first segment missing from
the store raises `UnknownKey` (carrying the full dotted key); but a later
missing segment does not stop the lookup with Null/absent: the loop's
accumulator becomes `None`, so the NEXT segment projects from the top-level
value again, and if the loop ends with `None` the whole top-level value is
returned. -/
theorem dbKey_amended (db : Store) (key first : String) (rest : List String)
    (hsplit : dotSplit key = first :: rest) :
    (objGet db first = none → dbKey db key = .error (.UnknownKey key)) ∧
    (∀ v, objGet db first = some v →
      dbKey db key = .ok ((dbKeyLoop v none rest).getD v)) ∧
    (∀ v, objGet db first = some v → ∀ acc k rest2,
      json_get k (acc.getD v) = none →
      dbKeyLoop v acc (k :: rest2) = dbKeyLoop v none rest2) := by
  refine ⟨?_, ?_, ?_⟩
  · intro h
    simp [dbKey, hsplit, h]
  · intro v h
    cases hl : dbKeyLoop v none rest <;> simp [dbKey, hsplit, h, hl]
  · intro v _ acc k rest2 hnone
    simp [dbKeyLoop, hnone]

/-- Counterexample for C1 as stated: with store `{a: {x: 1}}`, the lookup
`a.b` has its second segment missing, yet returns the whole object
`{x: 1}` (not Null, not an error); and with store `{a: {c: 5}}`, the
lookup `a.b.c` does not stop at the missing `b` — the final segment `c`
re-projects from the top-level value and the lookup returns `5`. -/
theorem dbKey_counterexample :
    dbKey [(("a"), Json.obj [(("x"), Json.num (.int 1))])] ("a.b")
      = .ok (Json.obj [(("x"), Json.num (.int 1))]) ∧
    Json.obj [(("x"), Json.num (.int 1))] ≠ Json.null ∧
    dbKey [(("a"), Json.obj [(("c"), Json.num (.int 5))])] ("a.b.c")
      = .ok (Json.num (.int 5)) := by
  have hs1 : dotSplit ("a.b") = [("a"), ("b")] := by decide
  have hs2 : dotSplit ("a.b.c") = [("a"), ("b"), ("c")] := by decide
  refine ⟨?_, by simp, ?_⟩
  · simp [dbKey, hs1, objGet, dbKeyLoop, json_get]
  · simp [dbKey, hs2, objGet, dbKeyLoop, json_get]

/-- Witness for C1: a concrete missing first segment raises `UnknownKey`
with the full dotted key. -/
theorem dbKey_amended_witness :
    dbKey [(("a"), Json.null)] ("b.c") = .error (.UnknownKey ("b.c")) :=
  (dbKey_amended [(("a"), Json.null)] ("b.c") ("b") [("c")] (by decide)).1 rfl

/-! ## C3: broadcasting add over (Array, Number) -/

theorem add_loop_nums (s : JsonNum) (a : List Json)
    (h : ∀ x ∈ a, x.isNum = true) :
    json_add_arr_num_loop s a = .ok (a.map (fun x =>
      Json.num (.float ((json_f64 x).getD 0 + s.as_f64)))) := by
  induction a with
  | nil => rfl
  | cons x t ih =>
    obtain ⟨n, rfl⟩ : ∃ n, x = Json.num n := by
      have hx := h x (List.mem_cons_self x t)
      cases x <;> simp [Json.isNum] at hx ⊢
    have ht := ih (fun y hy => h y (List.mem_cons_of_mem _ hy))
    simp [json_add_arr_num_loop, json_f64, ht]

theorem add_loop_panics (s : JsonNum) (a : List Json)
    (h : ∃ x ∈ a, x.isNum = false) :
    json_add_arr_num_loop s a = .error .panicked := by
  induction a with
  | nil => simp at h
  | cons x t ih =>
    rcases h with ⟨b, hb, hbo⟩
    rcases List.mem_cons.mp hb with rfl | hbt
    · cases b <;> simp_all [Json.isNum, json_add_arr_num_loop, json_f64]
    · have ht := ih ⟨b, hbt, hbo⟩
      cases x <;> simp [json_add_arr_num_loop, json_f64, ht]

/-- C3 (corrected): `add(a, s)` and `add(s, a)` agree and return an array
of length n whose i-th element is the float `as_f64(a[i]) + as_f64(s)` —
always floating, even when both operands are integral (so the broadcast
does NOT preserve integrality, unlike scalar-scalar `add`); a non-number
element makes the operation panic on `unwrap`, not fail with `BadType`. -/
theorem json_add_broadcast_amended (a : List Json) (s : JsonNum) :
    json_add (.num s) (.arr a) = json_add (.arr a) (.num s) ∧
    ((∀ x ∈ a, x.isNum = true) →
      json_add (.arr a) (.num s) = .ok (.arr (a.map (fun x =>
        Json.num (.float ((json_f64 x).getD 0 + s.as_f64)))))) ∧
    ((∃ x ∈ a, x.isNum = false) →
      json_add (.arr a) (.num s) = .error .panicked) := by
  refine ⟨by simp [json_add], ?_, ?_⟩
  · intro h
    simp [json_add, json_add_arr_num, add_loop_nums s a h]
  · intro h
    simp [json_add, json_add_arr_num, add_loop_panics s a h]

/-- Counterexample for C3 as stated: broadcasting `add([1], 2)` yields the
float `[3.0]`, while `add(1, 2)` yields the integer `3` — so
`add(a,s)[0] ≠ add(a[0], s)` on integral inputs and integrality is lost;
and a non-numeric element panics instead of producing `BadType`. -/
theorem json_add_broadcast_counterexample :
    json_add (.arr [Json.num (.int 1)]) (.num (.int 2))
      = .ok (.arr [Json.num (.float 3)]) ∧
    json_add (Json.num (.int 1)) (.num (.int 2)) = .ok (.num (.int 3)) ∧
    Json.num (.float 3) ≠ Json.num (.int 3) ∧
    json_add (.arr [Json.str ("x")]) (.num (.int 2))
      = .error .panicked := by
  refine ⟨?_, ?_, by simp, ?_⟩
  · simp [json_add, json_add_arr_num, json_add_arr_num_loop, json_f64,
      JsonNum.as_f64]
    norm_num
  · simp [json_add, json_add_nums, JsonNum.is_i64, JsonNum.as_i64]
  · simp [json_add, json_add_arr_num, json_add_arr_num_loop, json_f64]

/-- Witness for C3: the amended broadcast rule evaluated on `[1.5]` and
scalar `2`. -/
theorem json_add_broadcast_amended_witness :
    json_add (.arr [Json.num (.float (3/2))]) (.num (.int 2))
      = .ok (.arr [Json.num (.float (7/2))]) := by
  have h := (json_add_broadcast_amended [Json.num (.float (3/2))]
    (.int 2)).2.1 (by intro x hx; simp at hx; subst hx; rfl)
  rw [h]
  norm_num [json_f64, JsonNum.as_f64]

/-! ## C4: the two-pass variance -/

theorem sum_f64_aux_ok (s : List Json) (qs : List Rat) (acc : Rat)
    (hq : s.map json_f64 = qs.map some) :
    sum_f64_aux acc s = .ok (acc + qs.sum) := by
  induction s generalizing qs acc with
  | nil =>
    have : qs = [] := by
      cases qs with
      | nil => rfl
      | cons q t => simp at hq
    subst this
    simp [sum_f64_aux]
  | cons v t ih =>
    cases qs with
    | nil => simp at hq
    | cons q qt =>
      simp only [List.map_cons, List.cons.injEq] at hq
      simp [sum_f64_aux, hq.1, ih qt _ hq.2, add_assoc]

theorem sq_sum_f64_aux_ok (s : List Json) (qs : List Rat) (mean acc : Rat)
    (hq : s.map json_f64 = qs.map some) :
    sq_sum_f64_aux mean acc s
      = .ok (acc + (qs.map (fun q => (q - mean) ^ 2)).sum) := by
  induction s generalizing qs acc with
  | nil =>
    have : qs = [] := by
      cases qs with
      | nil => rfl
      | cons q t => simp at hq
    subst this
    simp [sq_sum_f64_aux]
  | cons v t ih =>
    cases qs with
    | nil => simp at hq
    | cons q qt =>
      simp only [List.map_cons, List.cons.injEq] at hq
      simp [sq_sum_f64_aux, hq.1, ih qt _ hq.2, add_assoc]

theorem sum_f64_aux_err (s : List Json) (acc : Rat)
    (h : ∃ x ∈ s, x.isNum = false) :
    sum_f64_aux acc s = .error .BadType := by
  induction s generalizing acc with
  | nil => simp at h
  | cons v t ih =>
    rcases h with ⟨b, hb, hbo⟩
    rcases List.mem_cons.mp hb with rfl | hbt
    · cases b <;> simp_all [Json.isNum, sum_f64_aux, json_f64]
    · cases v <;> simp [sum_f64_aux, json_f64, ih _ ⟨b, hbt, hbo⟩]

/-- The spec's two-pass variance formula: first pass
`mean = sum / (n - 1)`, second pass `Σ (x - mean)² / n`. -/
def var_two_pass (qs : List Rat) : Rat :=
  let mean := qs.sum / ((qs.length - 1 : Nat) : Rat)
  ((qs.map (fun q => (q - mean) ^ 2)).sum) / (qs.length : Rat)

/-- C4 (corrected): on an array of n ≥ 2 numeric elements with coercions
`qs`, `var` equals the spec's two-pass formula (mean divides by n - 1, the
second pass divides by n); a non-numeric element fails the whole aggregate
with `BadType`.  On `[1,2,3,4,5]` the formula gives 2.5625 (41/16), not
the 2.5 stated in the claim. -/
theorem json_arr_var_amended (s : List Json) :
    (∀ qs : List Rat, s.map json_f64 = qs.map some → 2 ≤ s.length →
      json_var (.arr s) = .ok (.num (.float (var_two_pass qs)))) ∧
    ((∃ x ∈ s, x.isNum = false) → json_var (.arr s) = .error .BadType) := by
  constructor
  · intro qs hq _
    have hlen : qs.length = s.length := by
      have := congrArg List.length hq
      simpa using this.symm
    simp [json_var, json_arr_var, sum_f64_aux_ok s qs 0 hq,
      sq_sum_f64_aux_ok s qs _ 0 hq, var_two_pass, hlen]
  · intro h
    simp [json_var, json_arr_var, sum_f64_aux_err s 0 h]

/-- Counterexample for C4 as stated: the two-pass computation on
`[1,2,3,4,5]` yields 41/16 = 2.5625 (mean 15/4 = 3.75, squared deviations
sum 205/16, divided by 5), not 2.5. -/
theorem json_arr_var_counterexample :
    json_var (.arr [Json.num (.int 1), Json.num (.int 2), Json.num (.int 3),
      Json.num (.int 4), Json.num (.int 5)])
      = .ok (.num (.float (41/16))) ∧
    (41/16 : Rat) ≠ 5/2 := by
  constructor
  · simp [json_var, json_arr_var, sum_f64_aux, sq_sum_f64_aux, json_f64,
      JsonNum.as_f64]
    norm_num
  · norm_num

/-- Witness for C4: the amended formula applied to `[1,2,3,4,5]`
evaluates to 41/16. -/
theorem json_arr_var_amended_witness :
    json_var (.arr [Json.num (.int 1), Json.num (.int 2), Json.num (.int 3),
      Json.num (.int 4), Json.num (.int 5)])
      = .ok (.num (.float (var_two_pass [1, 2, 3, 4, 5]))) :=
  (json_arr_var_amended [Json.num (.int 1), Json.num (.int 2),
    Json.num (.int 3), Json.num (.int 4), Json.num (.int 5)]).1
    [1, 2, 3, 4, 5] (by norm_num [json_f64, JsonNum.as_f64]) (by norm_num)

/-! ## C5: grouping partitions the rows -/

/-- Membership of a row in the group keyed by the string `k`: the row is an
Object whose `byKey` field is the string `k`. -/
def row_in_group (byKey k : String) (r : Json) : Bool :=
  match r with
  | .obj o =>
    match objGet o byKey with
    | some (.str s) => s = k
    | _ => false
  | _ => false

/-- The expected content of the group keyed by `k`: the rows of the group
in source order, each with the `by` field removed. -/
def group_spec (byKey k : String) (rows : List Json) : List Json :=
  (rows.filter (row_in_group byKey k)).map (fun r =>
    match r with
    | .obj o => Json.obj (objRemove o byKey)
    | v => v)

/-- How one grouping step extends an existing entry. -/
def merge_group (prev : Option Json) (l : List Json) : Option Json :=
  match prev with
  | some (.arr xs) => some (.arr (xs ++ l))
  | some v => some v
  | none => if l.isEmpty then none else some (.arr l)

theorem objGet_objInsert (o : List (String × Json)) (k k2 : String)
    (v : Json) :
    objGet (objInsert o k v) k2 = if k = k2 then some v else objGet o k2 := by
  induction o with
  | nil => simp [objInsert, objGet]
  | cons kv rest ih =>
    obtain ⟨k1, v1⟩ := kv
    by_cases hk : k1 = k
    · subst hk
      simp only [objInsert, if_pos rfl, objGet]
      split_ifs <;> simp_all [objGet]
    · simp only [objInsert, if_neg hk, objGet]
      split_ifs with h1 <;> simp_all [objGet]

theorem objGet_some_mem (o : List (String × Json)) (k : String) (v : Json)
    (h : objGet o k = some v) : (k, v) ∈ o := by
  induction o with
  | nil => simp [objGet] at h
  | cons kv rest ih =>
    obtain ⟨k1, v1⟩ := kv
    by_cases hk : k1 = k
    · subst hk
      simp [objGet] at h
      subst h
      exact List.mem_cons_self _ _
    · simp [objGet, hk] at h
      exact List.mem_cons_of_mem _ (ih h)

theorem mem_objInsert (o : List (String × Json)) (k : String) (v : Json) :
    ∀ kv ∈ objInsert o k v, kv = (k, v) ∨ kv ∈ o := by
  induction o with
  | nil => simp [objInsert]
  | cons kv1 rest ih =>
    obtain ⟨k1, v1⟩ := kv1
    intro kv hkv
    by_cases hk : k1 = k
    · subst hk
      simp only [objInsert, if_pos rfl] at hkv
      rcases List.mem_cons.mp hkv with rfl | h
      · exact Or.inl rfl
      · exact Or.inr (List.mem_cons_of_mem _ h)
    · simp only [objInsert, if_neg hk] at hkv
      rcases List.mem_cons.mp hkv with rfl | h
      · exact Or.inr (List.mem_cons_self _ _)
      · rcases ih kv h with h1 | h1
        · exact Or.inl h1
        · exact Or.inr (List.mem_cons_of_mem _ h1)

theorem groupTotal_insert_present (o : List (String × Json)) (k : String)
    (xs ys : List Json) (h : objGet o k = some (.arr xs)) :
    groupTotal (objInsert o k (.arr ys)) + xs.length
      = groupTotal o + ys.length := by
  induction o with
  | nil => simp [objGet] at h
  | cons kv rest ih =>
    obtain ⟨k1, v1⟩ := kv
    by_cases hk : k1 = k
    · subst hk
      simp [objGet] at h
      subst h
      simp [objInsert, groupTotal]
      omega
    · simp [objGet, hk] at h
      have := ih h
      simp [objInsert, hk, groupTotal] at this ⊢
      omega

theorem groupTotal_insert_absent (o : List (String × Json)) (k : String)
    (ys : List Json) (h : objGet o k = none) :
    groupTotal (objInsert o k (.arr ys)) = groupTotal o + ys.length := by
  induction o with
  | nil => simp [objInsert, groupTotal]
  | cons kv rest ih =>
    obtain ⟨k1, v1⟩ := kv
    by_cases hk : k1 = k
    · subst hk
      simp [objGet] at h
    · simp [objGet, hk] at h
      have := ih h
      simp [objInsert, hk, groupTotal] at this ⊢
      omega

theorem eval_keyed_aux_spec (byKey : String) (rows : List Json) :
    ∀ split : List (String × Json),
    (∀ r ∈ rows, ∃ o s, r = Json.obj o ∧ objGet o byKey = some (.str s)) →
    (∀ kv ∈ split, ∃ xs, kv.2 = Json.arr xs) →
    ∃ g, eval_keyed_aux byKey split rows = .ok g ∧
      groupTotal g = groupTotal split + rows.length ∧
      (∀ kv ∈ g, ∃ xs, kv.2 = Json.arr xs) ∧
      ∀ k, objGet g k
        = merge_group (objGet split k) (group_spec byKey k rows) := by
  induction rows with
  | nil =>
    intro split _ hsp
    refine ⟨split, rfl, by simp, hsp, ?_⟩
    intro k
    cases hk : objGet split k with
    | none => simp [merge_group, group_spec]
    | some v => cases v <;> simp [merge_group, group_spec]
  | cons r rest ih =>
    intro split hrows hsp
    obtain ⟨o, s, rfl, hby⟩ := hrows _ (List.mem_cons_self _ _)
    have hrest : ∀ x ∈ rest, ∃ o2 s2, x = Json.obj o2 ∧
        objGet o2 byKey = some (.str s2) :=
      fun x hx => hrows x (List.mem_cons_of_mem _ hx)
    -- the entry that `populate_entry` starts from
    have hentry : ∃ xs, (objGet split s).getD (.arr []) = Json.arr xs ∧
        ((objGet split s = some (.arr xs) ∧ objGet split s ≠ none) ∨
         (objGet split s = none ∧ xs = [])) := by
      cases hg : objGet split s with
      | none => exact ⟨[], rfl, Or.inr ⟨rfl, rfl⟩⟩
      | some v =>
        obtain ⟨xs, hxs⟩ := hsp _ (objGet_some_mem _ _ _ hg)
        subst hxs
        exact ⟨xs, rfl, Or.inl ⟨rfl, by simp⟩⟩
    obtain ⟨xs, hget, hcase⟩ := hentry
    have hpop : populate_entry split (.str s)
        (.obj (objRemove o byKey))
        = .ok (objInsert split s
            (.arr (xs ++ [Json.obj (objRemove o byKey)]))) := by
      simp [populate_entry, json_key_string, hget]
    have hsp2 : ∀ kv ∈ objInsert split s
        (.arr (xs ++ [Json.obj (objRemove o byKey)])),
        ∃ ys, kv.2 = Json.arr ys := by
      intro kv hkv
      rcases mem_objInsert _ _ _ kv hkv with rfl | h
      · exact ⟨_, rfl⟩
      · exact hsp kv h
    obtain ⟨g, hg, htot, hgarr, hcontent⟩ := ih _ hrest hsp2
    refine ⟨g, ?_, ?_, hgarr, ?_⟩
    · simp [eval_keyed_aux, hby, hpop, hg]
    · rw [htot]
      rcases hcase with ⟨hpres, _⟩ | ⟨habs, rfl⟩
      · have := groupTotal_insert_present split s xs
          (xs ++ [Json.obj (objRemove o byKey)]) hpres
        simp at this
        simp [List.length_cons]
        omega
      · have := groupTotal_insert_absent split s
          ([] ++ [Json.obj (objRemove o byKey)]) habs
        simp at this
        simp [List.length_cons]
        omega
    · intro k
      rw [hcontent k, objGet_objInsert]
      by_cases hsk : s = k
      · subst hsk
        have hrow : row_in_group byKey s (Json.obj o) = true := by
          simp [row_in_group, hby]
        rcases hcase with ⟨hpres, _⟩ | ⟨habs, rfl⟩
        · simp [hpres, merge_group, group_spec, hrow]
        · simp [habs, merge_group, group_spec, hrow]
      · have hrow : row_in_group byKey k (Json.obj o) = false := by
          simp [row_in_group, hby, hsk]
        simp [hsk, group_spec, hrow]

/-- C5 (corrected): with `by` present, no selects, and every filtered row
an Object carrying the `by` field with a string value, the groups partition
the rows: the sum of the group lengths equals the number of rows, and the
group keyed by `k` is exactly the rows whose `by` field is the string `k`,
in source order, each with the `by` field removed.  (A row lacking the
`by` field — or not an Object — is silently dropped from every group, and
a non-string `by` value panics, which is what refutes the claim as
stated.) -/
theorem keyed_select_amended (byKey : String) (rows : List Json)
    (hrows : ∀ r ∈ rows, ∃ o s, r = Json.obj o ∧
      objGet o byKey = some (.str s)) :
    ∃ g, eval_keyed_select_noselects (.str byKey) rows = .ok (.obj g) ∧
      groupTotal g = rows.length ∧
      ∀ k, objGet g k = if (group_spec byKey k rows).isEmpty then none
        else some (.arr (group_spec byKey k rows)) := by
  obtain ⟨g, hg, htot, _, hcontent⟩ :=
    eval_keyed_aux_spec byKey rows [] hrows (by simp)
  refine ⟨g, ?_, by simpa [groupTotal] using htot, ?_⟩
  · simp [eval_keyed_select_noselects, hg]
  · intro k
    have h := hcontent k
    simpa [objGet, merge_group] using h

/-- Counterexample for C5 as stated: one filtered row that is an Object but
lacks the `by` field lands in NO group: the result is the empty grouping,
whose total group length 0 differs from the 1 filtered row. -/
theorem keyed_select_counterexample :
    eval_keyed_select_noselects (.str ("name"))
      [Json.obj [(("a"), Json.num (.int 1))]] = .ok (.obj []) ∧
    groupTotal ([] : List (String × Json))
      ≠ ([Json.obj [(("a"), Json.num (.int 1))]] : List Json).length := by
  exact ⟨rfl, by simp [groupTotal]⟩

/-- Witness for C5: three rows grouped by `name` into groups `a` (two
rows, source order, `name` stripped) and `b` (one row). -/
theorem keyed_select_amended_witness :
    ∃ g, eval_keyed_select_noselects (.str ("name"))
      [Json.obj [(("name"), Json.str ("a")), (("x"), Json.num (.int 1))],
       Json.obj [(("name"), Json.str ("b"))],
       Json.obj [(("name"), Json.str ("a")), (("y"), Json.num (.int 2))]]
      = .ok (.obj g) ∧
      groupTotal g
        = ([Json.obj [(("name"), Json.str ("a")), (("x"), Json.num (.int 1))],
            Json.obj [(("name"), Json.str ("b"))],
            Json.obj [(("name"), Json.str ("a")),
              (("y"), Json.num (.int 2))]] : List Json).length ∧
      ∀ k, objGet g k = if (group_spec ("name") k
          [Json.obj [(("name"), Json.str ("a")), (("x"), Json.num (.int 1))],
           Json.obj [(("name"), Json.str ("b"))],
           Json.obj [(("name"), Json.str ("a")),
             (("y"), Json.num (.int 2))]]).isEmpty then none
        else some (.arr (group_spec ("name") k
          [Json.obj [(("name"), Json.str ("a")), (("x"), Json.num (.int 1))],
           Json.obj [(("name"), Json.str ("b"))],
           Json.obj [(("name"), Json.str ("a")),
             (("y"), Json.num (.int 2))]])) :=
  keyed_select_amended ("name")
    [Json.obj [(("name"), Json.str ("a")), (("x"), Json.num (.int 1))],
     Json.obj [(("name"), Json.str ("b"))],
     Json.obj [(("name"), Json.str ("a")), (("y"), Json.num (.int 2))]]
    (by
      intro r hr
      simp at hr
      rcases hr with rfl | rfl | rfl
      · exact ⟨_, ("a"), rfl, rfl⟩
      · exact ⟨_, ("b"), rfl, rfl⟩
      · exact ⟨_, ("a"), rfl, rfl⟩)

end Memson
